import Mathlib

/-!
Verification development for the public transaction submission engine of the
paladin repository.  The definitions below are a shallow embedding of the Go
code in `src/unnamed/part_004`: the `publictxmgr` engine (`poll`, `engineLoop`,
`MarkInFlightOrchestratorsStale`, `CheckTransactionCompleted`,
`updateCompletedTxNonce`, `DefaultTransactionEngineConfig`) and the `txmgr`
receipt event streams (`DeliverReceiptBatch`, `HandleLifecycle`).

Go maps are embedded as association lists keyed by the signing address
(`String`); map lookup finds the first matching key and map assignment
replaces the first matching entry or appends.  Instants (`time.Time`) and
durations (`time.Duration`) are embedded as natural numbers; `time.Since(t)`
becomes truncated subtraction `now - t`, so `time.Since(t) > d` is
`d < now - t`.  Database calls are embedded by passing the store's response
as an explicit `Except Unit` argument (`Except.error ()` standing for the
retried call surfacing a context-cancellation error).
-/

/-- Association list lookup: Go map read `m[k]` (first matching key). -/
def lookupAssoc {α : Type} : List (String × α) → String → Option α
  | [], _ => none
  | (k, v) :: rest, a => if k = a then some v else lookupAssoc rest a

/-- Association list update: Go map assignment `m[k] = v` (replace the first
entry with key `k`, or append a fresh entry when the key is absent). -/
def updateAssoc {α : Type} : List (String × α) → String → α → List (String × α)
  | [], k, v => [(k, v)]
  | (k', v') :: rest, k, v =>
    if k' = k then (k, v) :: rest else (k', v') :: updateAssoc rest k v

/-- Public transaction status, `PubTxStatusPending` etc. in the Go source. -/
inductive PubTxStatus
  | Pending
  | Submitted
  | Succeeded
  | Failed
  | Suspended
deriving DecidableEq

/-- The fields of `ptxapi.PublicTx` that the embedded engine operations read:
the signing address `From`, the ledger `Nonce`, and the `Status`.  The
remaining persisted fields (target address, call data, value, gas parameters)
are never inspected by `poll`, `CheckTransactionCompleted` or
`updateCompletedTxNonce` and are omitted. -/
structure PubTx where
  From : String
  Nonce : Nat
  Status : PubTxStatus
deriving DecidableEq

/-- Orchestrator states (`OrchestratorStateStale` etc.). -/
inductive OrchestratorState
  | Stale
  | Idle
  | Running
  | Paused
  | Stopped
deriving DecidableEq

/-- All orchestrator states, as the Go `AllOrchestratorStates` list used to
zero-initialise the per-state counters. -/
def AllOrchestratorStates : List OrchestratorState :=
  [OrchestratorState.Stale, OrchestratorState.Idle, OrchestratorState.Running,
   OrchestratorState.Paused, OrchestratorState.Stopped]

/-- The orchestrator fields the engine's `poll` reads: `state`,
`stateEntryTime` and `orchestratorBirthTime` (instants as `Nat`). -/
structure Orchestrator where
  state : OrchestratorState
  stateEntryTime : Nat
  orchestratorBirthTime : Nat
deriving DecidableEq

/-- The engine configuration fields `poll` reads (durations as `Nat`). -/
structure PollConfig where
  maxInFlightOrchestrators : Nat
  maxOrchestratorStale : Nat
  maxOrchestratorIdle : Nat
  maxOverloadProcessTime : Nat
deriving DecidableEq

/-- The mutable engine state `poll` operates on: the in-flight orchestrator
map `ble.InFlightOrchestrators` and the pause table
`ble.SigningAddressesPausedUntil`. -/
structure PollState where
  InFlightOrchestrators : List (String × Orchestrator)
  SigningAddressesPausedUntil : List (String × Nat)
deriving DecidableEq

/-- The query object `components.PubTransactionQueries` (only the fields the
embedded operations set). `SortBy` embeds the Go field `Sort` (a Lean keyword);
`"sequence"` is ascending creation-sequence order, `"-nonce"` descending
nonce order. -/
structure PubTransactionQueries where
  InStatus : List PubTxStatus := []
  SortBy : Option String := none
  Limit : Option Int := none
  NotFrom : List String := []
  From : Option String := none
  To : Option String := none
  HasTxValue : Bool := false
deriving DecidableEq

/-- Go `time.Since(t)` at instant `now` (truncated `Nat` subtraction). -/
def timeSince (now t : Nat) : Nat := now - t

/-- Reap condition of `poll`'s first phase: the orchestrator is `Stale` past
`maxOrchestratorStale`, or `Idle` past `maxOrchestratorIdle` (part_004 lines
319-320). -/
def reapDue (cfg : PollConfig) (now : Nat) (oc : Orchestrator) : Bool :=
  (oc.state == OrchestratorState.Stale
      && decide (cfg.maxOrchestratorStale < timeSince now oc.stateEntryTime))
  || (oc.state == OrchestratorState.Idle
      && decide (cfg.maxOrchestratorIdle < timeSince now oc.stateEntryTime))

/-- The survivors of the reap phase: entries of the old in-flight map whose
state is not `Stopped` are copied into the new map (part_004 lines 325-329).
`Stop()` is asynchronous, so orchestrators told to stop this tick still
survive it. -/
def survivorsOf (st : PollState) : List (String × Orchestrator) :=
  st.InFlightOrchestrators.filter
    (fun p => !(p.2.state == OrchestratorState.Stopped))

/-- Addresses on which the reap phase called `Stop()` (part_004 line 323). -/
def reapStoppedOf (cfg : PollConfig) (st : PollState) (now : Nat) : List String :=
  (st.InFlightOrchestrators.filter (fun p => reapDue cfg now p.2)).map Prod.fst

/-- Per-state counters after the reap phase: one count per surviving
orchestrator's state (part_004 line 328). -/
def baseStateCounts (st : PollState) : OrchestratorState → Nat :=
  fun s => ((survivorsOf st).filter (fun p => p.2.state == s)).length

/-- Pause-table entries whose paused-until instant is still in the future at
`now` (`time.Now().Before(pausedUntil)`, part_004 line 342). -/
def stillPausedOf (st : PollState) (now : Nat) : List (String × Nat) :=
  st.SigningAddressesPausedUntil.filter (fun p => decide (now < p.2))

/-- State counters after walking the pause table: each still-paused signer is
counted once in the `Paused` state (part_004 line 344). -/
def countsWithPaused (st : PollState) (now : Nat) : OrchestratorState → Nat :=
  fun s => baseStateCounts st s +
    (if s == OrchestratorState.Paused then (stillPausedOf st now).length else 0)

/-- The store query `poll` issues when there are free slots (part_004 lines
352-359): pending status, ascending sequence sort, limit = free slots, and
the exclusion set of in-flight plus still-paused signing addresses.  (The Go
code leaves `NotFrom` nil when the list is empty, which the store treats the
same as an empty exclusion set.) -/
def pollQuery (cfg : PollConfig) (st : PollState) (now : Nat) :
    PubTransactionQueries :=
  { InStatus := [PubTxStatus.Pending]
    SortBy := some "sequence"
    Limit := some ((cfg.maxInFlightOrchestrators : Int) -
      ((survivorsOf st).length : Int))
    NotFrom := (survivorsOf st).map Prod.fst
      ++ (stillPausedOf st now).map Prod.fst }

/-- Modelled from the spec: `NewOrchestrator` (the orchestrator constructor is
not under `src/`); a fresh orchestrator starts in the `Stale` state with its
birth and state-entry timestamps set to the current instant. -/
def NewOrchestrator (now : Nat) : Orchestrator :=
  { state := OrchestratorState.Stale
    stateEntryTime := now
    orchestratorBirthTime := now }

/-- One iteration of `poll`'s row loop (part_004 lines 370-380): if the row's
signing address has no orchestrator yet, create one, count its initial state
and start it; otherwise the extra row is logged and ignored. -/
def addRowOrchestrator (now : Nat)
    (acc : List (String × Orchestrator) × (OrchestratorState → Nat))
    (tx : PubTx) :
    List (String × Orchestrator) × (OrchestratorState → Nat) :=
  match lookupAssoc acc.1 tx.From with
  | some _ => acc
  | none =>
    (updateAssoc acc.1 tx.From (NewOrchestrator now),
     fun s => acc.2 s + (if s == (NewOrchestrator now).state then 1 else 0))

/-- Survivors whose age exceeds `maxOverloadProcessTime`
(`time.Since(oc.orchestratorBirthTime) > ble.maxOverloadProcessTime`,
part_004 line 392). -/
def overAgedOf (cfg : PollConfig) (st : PollState) (now : Nat) :
    List (String × Orchestrator) :=
  (survivorsOf st).filter (fun p =>
    decide (cfg.maxOverloadProcessTime <
      timeSince now p.2.orchestratorBirthTime))

/-- The observable outcome of one `poll` call: the new orchestrator map, the
updated pause table, the addresses `Stop()` was called on this tick, the
per-state counters handed to the metrics recorder, the store query issued (if
any), and the two returned counters `(polled, total)`. -/
structure PollResult where
  InFlightOrchestrators : List (String × Orchestrator)
  SigningAddressesPausedUntil : List (String × Nat)
  stoppedThisTick : List String
  stateCounts : OrchestratorState → Nat
  storeQuery : Option PubTransactionQueries
  polled : Int
  total : Nat

/-- The free-slots branch of `poll` (part_004 lines 338-384).  `storeOutcome`
is the eventual result of the indefinitely retried `ListTransactions` call:
`Except.error ()` when the retry loop surfaced a context-cancellation error
(in which case `poll` returns `-1` and creates nothing, line 365), or the
returned rows. -/
def pollSpacesAvailable (cfg : PollConfig) (st : PollState) (now : Nat)
    (storeOutcome : Except Unit (List PubTx)) : PollResult :=
  match storeOutcome with
  | Except.error _ =>
    { InFlightOrchestrators := survivorsOf st
      SigningAddressesPausedUntil := st.SigningAddressesPausedUntil
      stoppedThisTick := reapStoppedOf cfg st now
      stateCounts := countsWithPaused st now
      storeQuery := some (pollQuery cfg st now)
      polled := -1
      total := (survivorsOf st).length }
  | Except.ok rows =>
    { InFlightOrchestrators :=
        (rows.foldl (addRowOrchestrator now)
          (survivorsOf st, countsWithPaused st now)).1
      SigningAddressesPausedUntil := st.SigningAddressesPausedUntil
      stoppedThisTick := reapStoppedOf cfg st now
      stateCounts :=
        (rows.foldl (addRowOrchestrator now)
          (survivorsOf st, countsWithPaused st now)).2
      storeQuery := some (pollQuery cfg st now)
      polled := if 0 < (rows.foldl (addRowOrchestrator now)
            (survivorsOf st, countsWithPaused st now)).1.length then
          ((rows.foldl (addRowOrchestrator now)
            (survivorsOf st, countsWithPaused st now)).1.length : Int) -
            ((survivorsOf st).length : Int)
        else 0
      total := (rows.foldl (addRowOrchestrator now)
          (survivorsOf st, countsWithPaused st now)).1.length }

/-- The fairness branch of `poll` when the pool is full (part_004 lines
385-398): every survivor older than `maxOverloadProcessTime` is told to stop
and its address is written into the pause table with deadline
`now + maxOverloadProcessTime`; no store query is made, and the named return
values `polled` and `total` keep their zero defaults. -/
def pollFairness (cfg : PollConfig) (st : PollState) (now : Nat) : PollResult :=
  { InFlightOrchestrators := survivorsOf st
    SigningAddressesPausedUntil :=
      (overAgedOf cfg st now).foldl
        (fun acc p => updateAssoc acc p.1 (now + cfg.maxOverloadProcessTime))
        st.SigningAddressesPausedUntil
    stoppedThisTick := reapStoppedOf cfg st now
      ++ (overAgedOf cfg st now).map Prod.fst
    stateCounts := baseStateCounts st
    storeQuery := none
    polled := 0
    total := 0 }

/-- The engine's `poll` (part_004 lines 300-402): reap phase, then either the
free-slots branch (`spaces := maxInFlightOrchestrators - totalBeforePoll;
if spaces > 0`, lines 337-338) or the fairness branch. -/
def poll (cfg : PollConfig) (st : PollState) (now : Nat)
    (storeOutcome : Except Unit (List PubTx)) : PollResult :=
  if 0 < (cfg.maxInFlightOrchestrators : Int) - ((survivorsOf st).length : Int)
  then pollSpacesAvailable cfg st now storeOutcome
  else pollFairness cfg st now

/-- `MarkInFlightOrchestratorsStale` (part_004 lines 404-412): a non-blocking
send on the buffer-one channel `InFlightOrchestratorStale`.  The channel is
embedded as the number of queued signals; the send enqueues one signal when
the buffer is empty and does nothing when it already holds one (the Go
`select` with a `default` branch). -/
def MarkInFlightOrchestratorsStale (channel : Nat) : Nat :=
  if 1 ≤ channel then channel else channel + 1

/-- `n` successive calls of `MarkInFlightOrchestratorsStale` starting from a
channel holding `channel` signals. -/
def markStaleCalls : Nat → Nat → Nat
  | 0, channel => channel
  | Nat.succ n, channel => markStaleCalls n (MarkInFlightOrchestratorsStale channel)

/-- The wake behaviour of `engineLoop`'s select (part_004 lines 284-296)
between two ticker fires: each iteration that receives a queued signal from
`InFlightOrchestratorStale` consumes exactly one signal and performs exactly
one `poll`; with the channel empty the loop blocks until the next tick.  The
value is the number of extra polls performed before blocking. -/
def engineExtraPolls : Nat → Nat
  | 0 => 0
  | Nat.succ channel => engineExtraPolls channel + 1

/-- `updateCompletedTxNonce` (part_004 lines 469-484), returning the updated
completed-nonce cache (`ble.completedTxNoncePerAddress`) together with the
`updated` flag.  Nonces are `Nat` (the Go code compares `big.Int` nonces of
persisted transactions, which are never negative). -/
def updateCompletedTxNonce (cache : List (String × Nat)) (tx : PubTx) :
    List (String × Nat) × Bool :=
  if tx.Status ≠ PubTxStatus.Succeeded ∧ tx.Status ≠ PubTxStatus.Failed then
    (cache, false)
  else
    match lookupAssoc cache tx.From with
    | none => (updateAssoc cache tx.From tx.Nonce, true)
    | some currentNonce =>
      if currentNonce < tx.Nonce then
        (updateAssoc cache tx.From tx.Nonce, true)
      else (cache, false)

/-- The store query `CheckTransactionCompleted` issues on a cache miss
(part_004 lines 440-445): highest terminal (Succeeded or Failed) nonce of
`tx.From`, i.e. descending nonce sort with limit 1. -/
def checkCompletedQuery (tx : PubTx) : PubTransactionQueries :=
  { InStatus := [PubTxStatus.Succeeded, PubTxStatus.Failed]
    From := some tx.From
    SortBy := some "-nonce"
    Limit := some 1 }

/-- The observable outcome of one `CheckTransactionCompleted` call: the
returned flag, the cache after the call, and the store query issued (if
any). -/
structure CheckResult where
  completed : Bool
  cache : List (String × Nat)
  storeQuery : Option PubTransactionQueries

/-- `CheckTransactionCompleted` (part_004 lines 434-467).  On a cache hit the
cached nonce is compared with `tx.Nonce`; on a miss the store is queried
(`storeOutcome` is its response, `Except.error ()` a database error, which
makes the call report "not completed" without touching the cache), the first
returned row is fed to `updateCompletedTxNonce`, and the comparison proceeds
against that row's nonce. -/
def CheckTransactionCompleted (cache : List (String × Nat)) (tx : PubTx)
    (storeOutcome : Except Unit (List PubTx)) : CheckResult :=
  match lookupAssoc cache tx.From with
  | some completedTxNonce =>
    { completed := decide (tx.Nonce ≤ completedTxNonce)
      cache := cache
      storeQuery := none }
  | none =>
    match storeOutcome with
    | Except.error _ =>
      { completed := false
        cache := cache
        storeQuery := some (checkCompletedQuery tx) }
    | Except.ok txs =>
      match txs with
      | [] =>
        { completed := false
          cache := cache
          storeQuery := some (checkCompletedQuery tx) }
      | t :: _ =>
        { completed := decide (tx.Nonce ≤ t.Nonce)
          cache := (updateCompletedTxNonce cache t).1
          storeQuery := some (checkCompletedQuery tx) }

/-- The retry callback `poll` passes to `retry.Do` (part_004 lines 351-362):
it runs `ListTransactions` with the given query against the store and always
requests another attempt (`return true, err`), whatever the attempt number. -/
def pollRetryCallback (store : PubTransactionQueries → Except Unit (List PubTx))
    (q : PubTransactionQueries) (_attempt : Nat) :
    Bool × Except Unit (List PubTx) :=
  (true, store q)

/-- Modelled from the spec: `retry.Do` (the `toolkit/pkg/retry` package is not
under `src/`) invokes the callback repeatedly; a successful callback ends the
loop with its value, a failing callback is retried (after a backoff sleep)
while it requests retry and the context is alive, and the error surfaces when
the context is cancelled (`fuel` counts the attempts the context still
allows) or the callback declines retry. -/
def retryDoLoop (cb : Nat → Bool × Except Unit (List PubTx)) :
    Nat → Nat → Except Unit (List PubTx)
  | attempt, 0 => (cb attempt).2
  | attempt, Nat.succ fuel =>
    match cb attempt with
    | (_, Except.ok rows) => Except.ok rows
    | (retryFlag, Except.error e) =>
      if retryFlag then retryDoLoop cb (attempt + 1) fuel
      else Except.error e

/-- Modelled from the spec: the backoff delay of the retry helper (not under
`src/`) before attempt `attempt + 1`, in milliseconds: exponential from
`initialMs` with the given factor, capped at `capMs`. -/
def retryDelayMs (initialMs factor capMs attempt : Nat) : Nat :=
  min capMs (initialMs * factor ^ attempt)

/-- Package constant `defaultTransactionEngineMaxInFlightOrchestrators`
(part_004 line 224). -/
def defaultTransactionEngineMaxInFlightOrchestrators : Nat := 50

/-- Package constant `defaultTransactionEngineInterval` (part_004 line 225). -/
def defaultTransactionEngineInterval : String := "5s"

/-- Package constant `defaultTransactionEngineMaxStale` (part_004 line 226). -/
def defaultTransactionEngineMaxStale : String := "1m"

/-- Package constant `defaultTransactionEngineMaxIdle` (part_004 line 227). -/
def defaultTransactionEngineMaxIdle : String := "10s"

/-- Package constant `defaultMaxOverloadProcessTime` (part_004 line 228). -/
def defaultMaxOverloadProcessTime : String := "10m"

/-- Package constant `defaultTransactionEngineRetryInitDelay` (part_004
line 229). -/
def defaultTransactionEngineRetryInitDelay : String := "250ms"

/-- Package constant `defaultTransactionEngineRetryMaxDelay` (part_004
line 230). -/
def defaultTransactionEngineRetryMaxDelay : String := "30s"

/-- Package constant `defaultTransactionEngineRetryFactor` (part_004
line 231); the Go value is the float64 `2.0`, embedded exactly as a
rational. -/
def defaultTransactionEngineRetryFactor : ℚ := 2

/-- `retry.Config` (pointer fields embedded as `Option`). -/
structure RetryConfig where
  InitialDelay : Option String := none
  MaxDelay : Option String := none
  Factor : Option ℚ := none
deriving DecidableEq

/-- `cache.Config` (pointer fields embedded as `Option`). -/
structure CacheConfig where
  Capacity : Option Nat := none
deriving DecidableEq

/-- `TransactionEngineConfig` (part_004 lines 234-242); Go pointer fields
become `Option`, duration strings stay strings. -/
structure TransactionEngineConfig where
  MaxInFlightOrchestrators : Option Nat := none
  Interval : Option String := none
  MaxStaleTime : Option String := none
  MaxIdleTime : Option String := none
  MaxOverloadProcessTime : Option String := none
  TransactionCache : CacheConfig := {}
  Retry : RetryConfig := {}
deriving DecidableEq

/-- `DefaultTransactionEngineConfig` (part_004 lines 244-257).  The Go
literal writes the `"10s"` entry against the misspelled field name
`MaxIdleTim`; per the spec's directive it is embedded as `MaxIdleTime`.  The
literal never sets `MaxOverloadProcessTime`, so that field stays nil. -/
def DefaultTransactionEngineConfig : TransactionEngineConfig :=
  { MaxInFlightOrchestrators := some 50
    Interval := some "5s"
    MaxStaleTime := some "1m"
    MaxIdleTime := some "10s"
    MaxOverloadProcessTime := none
    Retry :=
      { InitialDelay := some "250ms"
        MaxDelay := some "30s"
        Factor := some 2 }
    TransactionCache := { Capacity := some 1000 } }

/-- Outcome of one `DeliverReceiptBatch` call (part_004 lines 153-171):
`ok` is the nil return after a positive ack, `nackError` the
`MsgTxMgrJSONRPCSubscriptionNack` error, `closedError` the
`MsgTxMgrJSONRPCSubscriptionClosed` error. -/
inductive DeliverOutcome
  | ok
  | nackError
  | closedError
deriving DecidableEq

/-- The per-subscription state `DeliverReceiptBatch` and `HandleLifecycle`
share: the buffer-one `acksNacks` channel (`some b` holds one queued
ack (`b = true`) or nack (`b = false`)) and whether `closed` has been
closed. -/
structure SubState where
  acksNacks : Option Bool
  closed : Bool
deriving DecidableEq

/-- The `ptx_ack` / `ptx_nack` arm of `HandleLifecycle` (part_004 lines
128-135): a non-blocking send of the ack flag on the buffer-one `acksNacks`
channel; when the buffer is full the `default` branch drops the signal. -/
def handleAckNack (sub : SubState) (isAck : Bool) : SubState :=
  match sub.acksNacks with
  | some _ => sub
  | none => { sub with acksNacks := some isAck }

/-- The blocking select of `DeliverReceiptBatch` after the batch is sent
(part_004 lines 160-170): `none` means neither channel is ready and the call
stays blocked; otherwise the resolved subscription state and outcome.  When
both an ack/nack and closure are ready the Go select chooses either;
`preferClosed` embeds that choice. -/
def deliverReceiptBatchStep (preferClosed : Bool) (sub : SubState) :
    Option (SubState × DeliverOutcome) :=
  match sub.acksNacks, sub.closed with
  | none, false => none
  | none, true => some (sub, DeliverOutcome.closedError)
  | some b, false =>
    some ({ sub with acksNacks := none },
      if b then DeliverOutcome.ok else DeliverOutcome.nackError)
  | some b, true =>
    if preferClosed then some (sub, DeliverOutcome.closedError)
    else
      some ({ sub with acksNacks := none },
        if b then DeliverOutcome.ok else DeliverOutcome.nackError)

/-- Modelled from the spec: the receipt-listener delivery loop that calls
`DeliverReceiptBatch` (not under `src/`) closes the subscription whenever the
call returns an error, so a nack (or a closed-error) ends the subscription. -/
def deliverAndReact (preferClosed : Bool) (sub : SubState) :
    Option (SubState × DeliverOutcome) :=
  match deliverReceiptBatchStep preferClosed sub with
  | none => none
  | some (s, DeliverOutcome.ok) => some (s, DeliverOutcome.ok)
  | some (s, e) => some ({ s with closed := true }, e)

/-! ## Association list lemmas -/

theorem lookup_updateAssoc_self {α : Type} (m : List (String × α))
    (k : String) (v : α) : lookupAssoc (updateAssoc m k v) k = some v := by
  induction m with
  | nil => simp [updateAssoc, lookupAssoc]
  | cons p rest ih =>
    obtain ⟨k', v'⟩ := p
    by_cases h : k' = k
    · simp [updateAssoc, h, lookupAssoc]
    · simp [updateAssoc, h, lookupAssoc, ih]

theorem lookup_updateAssoc_ne {α : Type} (m : List (String × α))
    (k a : String) (v : α) (h : k ≠ a) :
    lookupAssoc (updateAssoc m k v) a = lookupAssoc m a := by
  induction m with
  | nil => simp [updateAssoc, lookupAssoc, h]
  | cons p rest ih =>
    obtain ⟨k', v'⟩ := p
    by_cases hk : k' = k
    · subst hk
      simp [updateAssoc, lookupAssoc, h]
    · by_cases ha : k' = a
      · simp [updateAssoc, hk, lookupAssoc, ha, Ne.symm h]
      · simp [updateAssoc, hk, lookupAssoc, ha, ih]

theorem updateAssoc_length_le {α : Type} (m : List (String × α))
    (k : String) (v : α) : (updateAssoc m k v).length ≤ m.length + 1 := by
  induction m with
  | nil => simp [updateAssoc]
  | cons p rest ih =>
    obtain ⟨k', v'⟩ := p
    by_cases h : k' = k
    · simp [updateAssoc, h]
    · simpa [updateAssoc, h] using Nat.succ_le_succ ih

theorem lookup_eq_of_mem_nodup {α : Type} (l : List (String × α))
    (a : String) (x : α) (hnd : (l.map Prod.fst).Nodup) (hm : (a, x) ∈ l) :
    lookupAssoc l a = some x := by
  induction l with
  | nil => cases hm
  | cons p rest ih =>
    obtain ⟨k, v⟩ := p
    simp only [List.map_cons, List.nodup_cons] at hnd
    rcases List.mem_cons.mp hm with h | h
    · obtain ⟨rfl, rfl⟩ := Prod.mk.injEq .. ▸ h
      simp [lookupAssoc]
    · have hka : k ≠ a := by
        intro he
        exact hnd.1 (he ▸ (List.mem_map.mpr ⟨(a, x), h, rfl⟩))
      simp [lookupAssoc, hka, ih hnd.2 h]

/-! ## Completed-nonce cache: single-step monotonicity -/

theorem updateCompletedTxNonce_mono (cache : List (String × Nat)) (tx : PubTx)
    (a : String) (v : Nat) (h : lookupAssoc cache a = some v) :
    ∃ v', lookupAssoc (updateCompletedTxNonce cache tx).1 a = some v' ∧
      v ≤ v' := by
  unfold updateCompletedTxNonce
  split
  · exact ⟨v, h, le_refl v⟩
  · cases hc : lookupAssoc cache tx.From with
    | none =>
      have hne : tx.From ≠ a := by
        intro he
        rw [he, h] at hc
        cases hc
      simp only []
      rw [lookup_updateAssoc_ne _ _ _ _ hne]
      exact ⟨v, h, le_refl v⟩
    | some cur =>
      by_cases hlt : cur < tx.Nonce
      · simp only [hlt, if_pos]
        by_cases ha : tx.From = a
        · subst ha
          rw [h] at hc
          injection hc with hvc
          rw [lookup_updateAssoc_self]
          exact ⟨tx.Nonce, rfl, by omega⟩
        · rw [lookup_updateAssoc_ne _ _ _ _ ha]
          exact ⟨v, h, le_refl v⟩
      · simp only [hlt, if_neg, not_false_iff]
        exact ⟨v, h, le_refl v⟩

/-- C3: the per-signer completed-nonce cache is monotone: over any sequence
of `updateCompletedTxNonce` calls, an entry present for a signing address
stays present and its value never decreases, so the cached highest completed
nonce per signer is non-decreasing. -/
theorem claim_C3 (txs : List PubTx) (cache : List (String × Nat))
    (a : String) (v : Nat) (h : lookupAssoc cache a = some v) :
    ∃ v', lookupAssoc
        (txs.foldl (fun c t => (updateCompletedTxNonce c t).1) cache) a =
        some v' ∧ v ≤ v' := by
  induction txs generalizing cache v with
  | nil => exact ⟨v, h, le_refl v⟩
  | cons t ts ih =>
    obtain ⟨v1, h1, hv1⟩ := updateCompletedTxNonce_mono cache t a v h
    obtain ⟨v2, h2, hv2⟩ := ih _ v1 h1
    exact ⟨v2, h2, le_trans hv1 hv2⟩

theorem claim_C3_witness :
    lookupAssoc [("signer1", 4)] "signer1" = some 4 ∧
    ∃ v', lookupAssoc
        (([⟨"signer1", 7, PubTxStatus.Succeeded⟩,
           ⟨"signer1", 2, PubTxStatus.Failed⟩] : List PubTx).foldl
          (fun c t => (updateCompletedTxNonce c t).1) [("signer1", 4)])
        "signer1" = some v' ∧ 4 ≤ v' :=
  ⟨by decide, claim_C3 _ _ "signer1" 4 (by decide)⟩

/-- C10: `updateCompletedTxNonce` is a no-op returning `false` when the
transaction is not terminal, and when the existing entry already dominates
the nonce; it returns `true` exactly when it inserts or raises the entry for
`tx.From` to `tx.Nonce`, and it never touches any other signer's entry. -/
theorem claim_C10 (cache : List (String × Nat)) (tx : PubTx) :
    ((tx.Status ≠ PubTxStatus.Succeeded ∧ tx.Status ≠ PubTxStatus.Failed) →
      updateCompletedTxNonce cache tx = (cache, false)) ∧
    (∀ v, lookupAssoc cache tx.From = some v → tx.Nonce ≤ v →
      updateCompletedTxNonce cache tx = (cache, false)) ∧
    ((updateCompletedTxNonce cache tx).2 = true ↔
      ((tx.Status = PubTxStatus.Succeeded ∨ tx.Status = PubTxStatus.Failed) ∧
       ∀ v, lookupAssoc cache tx.From = some v → v < tx.Nonce)) ∧
    ((updateCompletedTxNonce cache tx).2 = true →
      lookupAssoc (updateCompletedTxNonce cache tx).1 tx.From =
        some tx.Nonce) ∧
    (∀ a, a ≠ tx.From →
      lookupAssoc (updateCompletedTxNonce cache tx).1 a =
        lookupAssoc cache a) := by
  by_cases hterm : tx.Status = PubTxStatus.Succeeded ∨
      tx.Status = PubTxStatus.Failed
  · have hs : ¬(tx.Status ≠ PubTxStatus.Succeeded ∧
        tx.Status ≠ PubTxStatus.Failed) := by
      rintro ⟨h1, h2⟩
      exact hterm.elim h1 h2
    cases hc : lookupAssoc cache tx.From with
    | none =>
      have heq : updateCompletedTxNonce cache tx =
          (updateAssoc cache tx.From tx.Nonce, true) := by
        unfold updateCompletedTxNonce
        rw [if_neg hs, hc]
      refine ⟨fun h => absurd h hs, ?_, ?_, ?_, ?_⟩
      · intro v hv
        simp [hc] at hv
      · rw [heq]
        exact ⟨fun _ => ⟨hterm, fun v hv => by simp [hc] at hv⟩,
          fun _ => rfl⟩
      · intro _
        rw [heq]
        exact lookup_updateAssoc_self cache tx.From tx.Nonce
      · intro a ha
        rw [heq]
        exact lookup_updateAssoc_ne cache tx.From a tx.Nonce
          (fun he => ha he.symm)
    | some cur =>
      by_cases hlt : cur < tx.Nonce
      · have heq : updateCompletedTxNonce cache tx =
            (updateAssoc cache tx.From tx.Nonce, true) := by
          unfold updateCompletedTxNonce
          rw [if_neg hs, hc]
          exact if_pos hlt
        refine ⟨fun h => absurd h hs, ?_, ?_, ?_, ?_⟩
        · intro v hv hn
          have hv' : cur = v := by simpa [hc] using hv
          omega
        · rw [heq]
          refine ⟨fun _ => ⟨hterm, fun v hv => ?_⟩, fun _ => rfl⟩
          have hv' : cur = v := by simpa [hc] using hv
          omega
        · intro _
          rw [heq]
          exact lookup_updateAssoc_self cache tx.From tx.Nonce
        · intro a ha
          rw [heq]
          exact lookup_updateAssoc_ne cache tx.From a tx.Nonce
            (fun he => ha he.symm)
      · have heq : updateCompletedTxNonce cache tx = (cache, false) := by
          unfold updateCompletedTxNonce
          rw [if_neg hs, hc]
          exact if_neg hlt
        refine ⟨fun h => absurd h hs, fun v hv hn => heq, ?_, ?_, ?_⟩
        · rw [heq]
          constructor
          · intro hfalse
            exact absurd hfalse (by simp)
          · rintro ⟨-, hall⟩
            exact absurd (hall cur rfl) hlt
        · rw [heq]
          intro hfalse
          exact absurd hfalse (by simp)
        · intro a _
          rw [heq]
  · have hs : tx.Status ≠ PubTxStatus.Succeeded ∧
        tx.Status ≠ PubTxStatus.Failed :=
      ⟨fun h => hterm (Or.inl h), fun h => hterm (Or.inr h)⟩
    have heq : updateCompletedTxNonce cache tx = (cache, false) := by
      unfold updateCompletedTxNonce
      rw [if_pos hs]
    refine ⟨fun _ => heq, fun v hv hn => heq, ?_, ?_, ?_⟩
    · rw [heq]
      constructor
      · intro hfalse
        exact absurd hfalse (by simp)
      · rintro ⟨ht, -⟩
        exact absurd ht hterm
    · rw [heq]
      intro hfalse
      exact absurd hfalse (by simp)
    · intro a _
      rw [heq]

/-- C4: `CheckTransactionCompleted` returns true iff the (possibly freshly
populated) completed-nonce cache entry for `tx.From` is at least `tx.Nonce`;
on a cache hit it issues no store query and leaves the cache alone, and on a
miss it issues the highest-terminal-nonce query for `tx.From`, populates the
cache with the returned row's nonce, and compares against that value (a
database error or an empty result reports "not completed" and leaves the
cache unchanged).  `hstore` says the store answers the query honestly: any
returned row belongs to `tx.From` and has a terminal status. -/
theorem claim_C4 (cache : List (String × Nat)) (tx : PubTx)
    (storeOutcome : Except Unit (List PubTx))
    (hstore : ∀ t rest, storeOutcome = Except.ok (t :: rest) →
      t.From = tx.From ∧
      (t.Status = PubTxStatus.Succeeded ∨ t.Status = PubTxStatus.Failed)) :
    ((CheckTransactionCompleted cache tx storeOutcome).completed = true ↔
      ∃ v, lookupAssoc (CheckTransactionCompleted cache tx storeOutcome).cache
          tx.From = some v ∧ tx.Nonce ≤ v) ∧
    (∀ v, lookupAssoc cache tx.From = some v →
      (CheckTransactionCompleted cache tx storeOutcome).storeQuery = none ∧
      (CheckTransactionCompleted cache tx storeOutcome).cache = cache) ∧
    (lookupAssoc cache tx.From = none →
      (CheckTransactionCompleted cache tx storeOutcome).storeQuery =
        some (checkCompletedQuery tx) ∧
      (∀ t rest, storeOutcome = Except.ok (t :: rest) →
        lookupAssoc (CheckTransactionCompleted cache tx storeOutcome).cache
          tx.From = some t.Nonce) ∧
      (storeOutcome = Except.error () →
        (CheckTransactionCompleted cache tx storeOutcome).completed = false ∧
        (CheckTransactionCompleted cache tx storeOutcome).cache = cache) ∧
      (storeOutcome = Except.ok [] →
        (CheckTransactionCompleted cache tx storeOutcome).completed = false ∧
        (CheckTransactionCompleted cache tx storeOutcome).cache = cache)) := by
  cases hlk : lookupAssoc cache tx.From with
  | some v =>
    have heq : CheckTransactionCompleted cache tx storeOutcome =
        { completed := decide (tx.Nonce ≤ v)
          cache := cache
          storeQuery := none } := by
      unfold CheckTransactionCompleted
      rw [hlk]
    refine ⟨?_, fun w hw => by rw [heq]; exact ⟨rfl, rfl⟩,
      fun hnone => absurd hnone (by simp)⟩
    rw [heq]
    simp only [decide_eq_true_eq]
    constructor
    · intro hle
      exact ⟨v, hlk, hle⟩
    · rintro ⟨w, hw, hle⟩
      rw [hlk] at hw
      cases hw
      exact hle
  | none =>
    cases storeOutcome with
    | error e =>
      have heq : CheckTransactionCompleted cache tx (Except.error e) =
          { completed := false
            cache := cache
            storeQuery := some (checkCompletedQuery tx) } := by
        unfold CheckTransactionCompleted
        rw [hlk]
      refine ⟨?_, fun w hw => Option.noConfusion hw, fun _ => ?_⟩
      · rw [heq]
        constructor
        · intro hfalse
          exact absurd hfalse (by simp)
        · rintro ⟨w, hw, -⟩
          rw [hlk] at hw
          exact Option.noConfusion hw
      · refine ⟨by rw [heq], fun t rest ht => Except.noConfusion ht,
          fun _ => ?_, fun hok => Except.noConfusion hok⟩
        rw [heq]
        exact ⟨rfl, rfl⟩
    | ok txs =>
      cases txs with
      | nil =>
        have heq : CheckTransactionCompleted cache tx (Except.ok []) =
            { completed := false
              cache := cache
              storeQuery := some (checkCompletedQuery tx) } := by
          unfold CheckTransactionCompleted
          rw [hlk]
        refine ⟨?_, fun w hw => Option.noConfusion hw, fun _ => ?_⟩
        · rw [heq]
          constructor
          · intro hfalse
            exact absurd hfalse (by simp)
          · rintro ⟨w, hw, -⟩
            rw [hlk] at hw
            exact Option.noConfusion hw
        · refine ⟨by rw [heq], fun t rest ht => ?_,
            fun herr => Except.noConfusion herr, fun _ => ?_⟩
          · exact absurd ht (by simp)
          · rw [heq]
            exact ⟨rfl, rfl⟩
      | cons t rest =>
        obtain ⟨hfrom, hterm⟩ := hstore t rest rfl
        have hs : ¬(t.Status ≠ PubTxStatus.Succeeded ∧
            t.Status ≠ PubTxStatus.Failed) := by
          rintro ⟨h1, h2⟩
          exact hterm.elim h1 h2
        have hlkt : lookupAssoc cache t.From = none := by rw [hfrom, hlk]
        have hupd : (updateCompletedTxNonce cache t).1 =
            updateAssoc cache t.From t.Nonce := by
          unfold updateCompletedTxNonce
          rw [if_neg hs, hlkt]
        have heq : CheckTransactionCompleted cache tx (Except.ok (t :: rest)) =
            { completed := decide (tx.Nonce ≤ t.Nonce)
              cache := (updateCompletedTxNonce cache t).1
              storeQuery := some (checkCompletedQuery tx) } := by
          unfold CheckTransactionCompleted
          rw [hlk]
        have hcachelk : lookupAssoc
            (CheckTransactionCompleted cache tx (Except.ok (t :: rest))).cache
            tx.From = some t.Nonce := by
          rw [heq]
          show lookupAssoc (updateCompletedTxNonce cache t).1 tx.From =
            some t.Nonce
          rw [hupd, ← hfrom]
          exact lookup_updateAssoc_self cache t.From t.Nonce
        refine ⟨?_, fun w hw => Option.noConfusion hw, fun _ => ?_⟩
        · constructor
          · intro hcomp
            refine ⟨t.Nonce, hcachelk, ?_⟩
            rw [heq] at hcomp
            simpa using hcomp
          · rintro ⟨w, hw, hle⟩
            rw [hcachelk] at hw
            cases hw
            rw [heq]
            simpa using hle
        · refine ⟨by rw [heq], fun t' rest' ht' => ?_,
            fun herr => Except.noConfusion herr, fun hok => ?_⟩
          · injection ht' with h1
            injection h1 with h2 h3
            cases h2
            exact hcachelk
          · injection hok with h1
            exact List.noConfusion h1

theorem claim_C4_witness :
    (CheckTransactionCompleted [] ⟨"signer3", 3, PubTxStatus.Pending⟩
      (Except.ok [⟨"signer3", 5, PubTxStatus.Succeeded⟩])).storeQuery =
      some (checkCompletedQuery ⟨"signer3", 3, PubTxStatus.Pending⟩) ∧
    lookupAssoc (CheckTransactionCompleted []
      ⟨"signer3", 3, PubTxStatus.Pending⟩
      (Except.ok [⟨"signer3", 5, PubTxStatus.Succeeded⟩])).cache "signer3" =
      some 5 := by
  have h := claim_C4 [] ⟨"signer3", 3, PubTxStatus.Pending⟩
    (Except.ok [⟨"signer3", 5, PubTxStatus.Succeeded⟩])
    (by
      intro t rest ht
      injection ht with h1
      injection h1 with h2 h3
      cases h2
      exact ⟨rfl, Or.inl rfl⟩)
  obtain ⟨-, -, hmiss⟩ := h
  obtain ⟨hq, hrow, -, -⟩ := hmiss (by decide)
  exact ⟨hq, hrow ⟨"signer3", 5, PubTxStatus.Succeeded⟩ [] rfl⟩

theorem claim_C10_witness :
    updateCompletedTxNonce [("signer2", 6)]
      ⟨"signer2", 9, PubTxStatus.Pending⟩ = ([("signer2", 6)], false) ∧
    updateCompletedTxNonce [("signer2", 6)]
      ⟨"signer2", 3, PubTxStatus.Succeeded⟩ = ([("signer2", 6)], false) :=
  ⟨(claim_C10 [("signer2", 6)] ⟨"signer2", 9, PubTxStatus.Pending⟩).1
      (by decide),
   (claim_C10 [("signer2", 6)] ⟨"signer2", 3, PubTxStatus.Succeeded⟩).2.1
      6 (by decide) (by decide)⟩


/-! ## Wake coalescing -/

theorem markStaleCalls_le_one (n : Nat) (c : Nat) (hc : c ≤ 1) :
    markStaleCalls n c ≤ 1 := by
  induction n generalizing c with
  | zero => exact hc
  | succ n ih =>
    show markStaleCalls n (MarkInFlightOrchestratorsStale c) ≤ 1
    apply ih
    unfold MarkInFlightOrchestratorsStale
    split <;> omega

theorem markStaleCalls_one (m : Nat) : markStaleCalls m 1 = 1 := by
  induction m with
  | zero => rfl
  | succ m ih =>
    show markStaleCalls m (MarkInFlightOrchestratorsStale 1) = 1
    have h : MarkInFlightOrchestratorsStale 1 = 1 := rfl
    rw [h]
    exact ih

/-- C6: `MarkInFlightOrchestratorsStale` is non-blocking and coalescing:
after any `n ≥ 1` calls between two engine ticks starting from an empty
buffer-one channel exactly one signal is queued (and the channel never holds
more than one signal), so the engine loop, which consumes one signal per
select iteration, performs exactly one extra poll. -/
theorem claim_C6 (n : Nat) (hn : 1 ≤ n) (c : Nat) (hc : c ≤ 1) :
    markStaleCalls n 0 = 1 ∧ markStaleCalls n c ≤ 1 ∧
    engineExtraPolls (markStaleCalls n 0) = 1 := by
  have h1 : markStaleCalls n 0 = 1 := by
    cases n with
    | zero => omega
    | succ m =>
      show markStaleCalls m (MarkInFlightOrchestratorsStale 0) = 1
      have h0 : MarkInFlightOrchestratorsStale 0 = 1 := rfl
      rw [h0]
      exact markStaleCalls_one m
  refine ⟨h1, markStaleCalls_le_one n c hc, ?_⟩
  rw [h1]
  decide

theorem claim_C6_witness :
    markStaleCalls 5 0 = 1 ∧ markStaleCalls 5 1 ≤ 1 ∧
    engineExtraPolls (markStaleCalls 5 0) = 1 :=
  claim_C6 5 (by decide) 1 (by decide)

/-! ## Receipt batch delivery -/

/-- C9: after sending a batch, `DeliverReceiptBatch` blocks until an ack, a
nack or subscription closure: with nothing queued and the subscription open
it stays blocked; a queued ack yields the nil return; a queued nack yields
the nack error and (via the delivery loop's reaction) a closed subscription;
closure with no ack queued yields the closed error.  `HandleLifecycle`
enqueues an ack/nack only when the buffer-one channel is empty and drops it
otherwise. -/
theorem claim_C9 (preferClosed b b0 c : Bool) :
    deliverReceiptBatchStep preferClosed
      { acksNacks := none, closed := false } = none ∧
    deliverAndReact preferClosed { acksNacks := some true, closed := false } =
      some ({ acksNacks := none, closed := false }, DeliverOutcome.ok) ∧
    deliverAndReact preferClosed { acksNacks := some false, closed := false } =
      some ({ acksNacks := none, closed := true }, DeliverOutcome.nackError) ∧
    deliverAndReact preferClosed { acksNacks := none, closed := true } =
      some ({ acksNacks := none, closed := true }, DeliverOutcome.closedError) ∧
    handleAckNack { acksNacks := none, closed := c } b =
      { acksNacks := some b, closed := c } ∧
    handleAckNack { acksNacks := some b0, closed := c } b =
      { acksNacks := some b0, closed := c } := by
  refine ⟨rfl, rfl, rfl, rfl, rfl, rfl⟩

/-! ## Poll helper lemmas -/

theorem foldl_addRow_length (now : Nat) (rows : List PubTx)
    (m : List (String × Orchestrator)) (c : OrchestratorState → Nat) :
    (rows.foldl (addRowOrchestrator now) (m, c)).1.length ≤
      m.length + rows.length := by
  induction rows generalizing m c with
  | nil => simp
  | cons r rs ih =>
    show (rs.foldl (addRowOrchestrator now)
      (addRowOrchestrator now (m, c) r)).1.length ≤ _
    have hstep : (addRowOrchestrator now (m, c) r).1.length ≤ m.length + 1 := by
      unfold addRowOrchestrator
      cases hl : lookupAssoc m r.From with
      | some _ => simp
      | none => simpa using updateAssoc_length_le m r.From (NewOrchestrator now)
    have hpair : addRowOrchestrator now (m, c) r =
        ((addRowOrchestrator now (m, c) r).1,
         (addRowOrchestrator now (m, c) r).2) := rfl
    rw [hpair]
    have := ih (addRowOrchestrator now (m, c) r).1
      (addRowOrchestrator now (m, c) r).2
    simp only [List.length_cons]
    omega

theorem foldl_addRow_counts (now : Nat) (rows : List PubTx)
    (m : List (String × Orchestrator)) (c : OrchestratorState → Nat)
    (s : OrchestratorState) (hs : s ≠ OrchestratorState.Stale) :
    (rows.foldl (addRowOrchestrator now) (m, c)).2 s = c s := by
  induction rows generalizing m c with
  | nil => rfl
  | cons r rs ih =>
    show (rs.foldl (addRowOrchestrator now)
      (addRowOrchestrator now (m, c) r)).2 s = c s
    cases hl : lookupAssoc m r.From with
    | some _ =>
      have hstep : addRowOrchestrator now (m, c) r = (m, c) := by
        unfold addRowOrchestrator
        rw [hl]
      rw [hstep]
      exact ih m c
    | none =>
      have hstep : addRowOrchestrator now (m, c) r =
          (updateAssoc m r.From (NewOrchestrator now),
           fun s' => c s' +
             (if s' == (NewOrchestrator now).state then 1 else 0)) := by
        unfold addRowOrchestrator
        rw [hl]
      rw [hstep]
      rw [ih _ _]
      simp [NewOrchestrator, hs]

theorem lookup_foldl_updateConst_not_mem {β γ : Type} (l : List (String × γ))
    (m : List (String × β)) (v : β) (a : String)
    (h : a ∉ l.map Prod.fst) :
    lookupAssoc (l.foldl (fun acc p => updateAssoc acc p.1 v) m) a =
      lookupAssoc m a := by
  induction l generalizing m with
  | nil => rfl
  | cons p rest ih =>
    simp only [List.map_cons, List.mem_cons, not_or] at h
    obtain ⟨h2, h1⟩ := h
    show lookupAssoc (rest.foldl (fun acc p => updateAssoc acc p.1 v)
      (updateAssoc m p.1 v)) a = _
    rw [ih (updateAssoc m p.1 v) h1,
      lookup_updateAssoc_ne m p.1 a v (fun he => h2 he.symm)]

theorem lookup_foldl_updateConst_mem {β γ : Type} (l : List (String × γ))
    (m : List (String × β)) (v : β) (a : String)
    (h : a ∈ l.map Prod.fst) :
    lookupAssoc (l.foldl (fun acc p => updateAssoc acc p.1 v) m) a =
      some v := by
  induction l generalizing m with
  | nil => cases h
  | cons p rest ih =>
    show lookupAssoc (rest.foldl (fun acc p => updateAssoc acc p.1 v)
      (updateAssoc m p.1 v)) a = some v
    by_cases hr : a ∈ rest.map Prod.fst
    · exact ih _ hr
    · have hpa : p.1 = a := by
        simp only [List.map_cons, List.mem_cons] at h
        rcases h with h | h
        · exact h.symm
        · exact absurd h hr
      rw [lookup_foldl_updateConst_not_mem rest (updateAssoc m p.1 v) v a hr,
        hpa]
      exact lookup_updateAssoc_self m a v

theorem assoc_nodup_keys_eq {β : Type} (l : List (String × β)) (a : String)
    (x y : β) (hnd : (l.map Prod.fst).Nodup) (hx : (a, x) ∈ l)
    (hy : (a, y) ∈ l) : x = y := by
  have h1 := lookup_eq_of_mem_nodup l a x hnd hx
  have h2 := lookup_eq_of_mem_nodup l a y hnd hy
  rw [h1] at h2
  exact Option.some.inj h2

/-! ## Engine poll claims -/

/-- C2: on a poll tick with no free slot (at least `maxInFlightOrchestrators`
survivors), no store query is issued, and every surviving orchestrator whose
age exceeds `maxOverloadProcessTime` has `Stop()` called on it and its
signing address written into the pause table with deadline
`now + maxOverloadProcessTime`. -/
theorem claim_C2 (cfg : PollConfig) (st : PollState) (now : Nat)
    (storeOutcome : Except Unit (List PubTx))
    (hfull : cfg.maxInFlightOrchestrators ≤ (survivorsOf st).length) :
    (poll cfg st now storeOutcome).storeQuery = none ∧
    ∀ a oc, (a, oc) ∈ survivorsOf st →
      cfg.maxOverloadProcessTime < timeSince now oc.orchestratorBirthTime →
      a ∈ (poll cfg st now storeOutcome).stoppedThisTick ∧
      lookupAssoc
          (poll cfg st now storeOutcome).SigningAddressesPausedUntil a =
        some (now + cfg.maxOverloadProcessTime) := by
  have hbranch : poll cfg st now storeOutcome = pollFairness cfg st now := by
    unfold poll
    rw [if_neg (by omega)]
  rw [hbranch]
  simp only [pollFairness]
  refine ⟨trivial, fun a oc hmem hage => ?_⟩
  have hover : (a, oc) ∈ overAgedOf cfg st now := by
    unfold overAgedOf
    rw [List.mem_filter]
    exact ⟨hmem, by simpa using hage⟩
  have hmap : a ∈ (overAgedOf cfg st now).map Prod.fst :=
    List.mem_map.mpr ⟨(a, oc), hover, rfl⟩
  exact ⟨List.mem_append.mpr (Or.inr hmap),
    lookup_foldl_updateConst_mem (overAgedOf cfg st now)
      st.SigningAddressesPausedUntil (now + cfg.maxOverloadProcessTime) a hmap⟩

/-- A one-survivor engine state used to instantiate the fairness-eviction
theorem on concrete input. -/
def fairnessCfg : PollConfig := ⟨1, 100, 100, 10⟩

/-- The engine state for the fairness-eviction instantiation: one `Running`
orchestrator born at instant 0, empty pause table. -/
def fairnessSt : PollState :=
  ⟨[("busy", ⟨OrchestratorState.Running, 0, 0⟩)], []⟩

theorem claim_C2_witness :
    (poll fairnessCfg fairnessSt 20 (Except.ok [])).storeQuery = none ∧
    "busy" ∈ (poll fairnessCfg fairnessSt 20 (Except.ok [])).stoppedThisTick ∧
    lookupAssoc (poll fairnessCfg fairnessSt 20
        (Except.ok [])).SigningAddressesPausedUntil "busy" = some 30 := by
  have h := claim_C2 fairnessCfg fairnessSt 20 (Except.ok []) (by decide)
  obtain ⟨hq, hall⟩ := h
  obtain ⟨hstop, hpause⟩ := hall "busy" ⟨OrchestratorState.Running, 0, 0⟩
    (by decide) (by decide)
  exact ⟨hq, hstop, hpause⟩

/-- C5: with free slots available, `poll` walks the pause table first: the
issued store query has pending status, ascending sequence sort, limit = free
slots, and an exclusion set that is exactly the union of surviving in-flight
signers and still-paused signers; every still-paused signer is counted in the
`Paused` state metric but never polled, and a signer whose paused-until
instant has passed (and who has no surviving orchestrator) is not excluded
from polling. -/
theorem claim_C5 (cfg : PollConfig) (st : PollState) (now : Nat)
    (storeOutcome : Except Unit (List PubTx))
    (hspace : (survivorsOf st).length < cfg.maxInFlightOrchestrators)
    (hnd : (st.SigningAddressesPausedUntil.map Prod.fst).Nodup) :
    (poll cfg st now storeOutcome).storeQuery = some (pollQuery cfg st now) ∧
    (pollQuery cfg st now).InStatus = [PubTxStatus.Pending] ∧
    (pollQuery cfg st now).SortBy = some "sequence" ∧
    (pollQuery cfg st now).Limit =
      some ((cfg.maxInFlightOrchestrators : Int) -
        ((survivorsOf st).length : Int)) ∧
    (∀ a, a ∈ (pollQuery cfg st now).NotFrom ↔
      (a ∈ (survivorsOf st).map Prod.fst ∨
       a ∈ (stillPausedOf st now).map Prod.fst)) ∧
    (poll cfg st now storeOutcome).stateCounts OrchestratorState.Paused =
      baseStateCounts st OrchestratorState.Paused +
        (stillPausedOf st now).length ∧
    (∀ a pu, (a, pu) ∈ st.SigningAddressesPausedUntil → pu ≤ now →
      a ∉ (survivorsOf st).map Prod.fst →
      a ∉ (pollQuery cfg st now).NotFrom) := by
  have hbranch : poll cfg st now storeOutcome =
      pollSpacesAvailable cfg st now storeOutcome := by
    unfold poll
    rw [if_pos (by omega)]
  have hcounts : countsWithPaused st now OrchestratorState.Paused =
      baseStateCounts st OrchestratorState.Paused +
        (stillPausedOf st now).length := by
    unfold countsWithPaused
    simp
  refine ⟨?_, rfl, rfl, rfl, fun a => ?_, ?_, fun a pu hmem hpast hsurv => ?_⟩
  · rw [hbranch]
    cases storeOutcome with
    | error e => rfl
    | ok rows => rfl
  · unfold pollQuery
    simp
  · rw [hbranch]
    cases storeOutcome with
    | error e =>
      show countsWithPaused st now OrchestratorState.Paused = _
      exact hcounts
    | ok rows =>
      show (rows.foldl (addRowOrchestrator now)
        (survivorsOf st, countsWithPaused st now)).2 OrchestratorState.Paused = _
      rw [foldl_addRow_counts now rows (survivorsOf st)
        (countsWithPaused st now) OrchestratorState.Paused (by decide)]
      exact hcounts
  · unfold pollQuery
    simp only [List.mem_append]
    rintro (h | h)
    · exact hsurv h
    · obtain ⟨⟨a', pu'⟩, hmem', heq⟩ := List.mem_map.mp h
      cases heq
      have hfil := List.mem_filter.mp hmem'
      have hfut : now < pu' := by simpa using hfil.2
      have : pu' = pu := assoc_nodup_keys_eq st.SigningAddressesPausedUntil
        a' pu' pu hnd hfil.1 hmem
      omega

/-- The engine state for the free-slots instantiation: one `Running`
survivor, one still-paused signer and one signer whose pause has expired. -/
def spacesSt : PollState :=
  ⟨[("live", ⟨OrchestratorState.Running, 0, 0⟩)],
   [("parked", 30), ("released", 5)]⟩

/-- The engine configuration for the free-slots instantiation. -/
def spacesCfg : PollConfig := ⟨3, 100, 100, 10⟩

theorem claim_C5_witness :
    (poll spacesCfg spacesSt 20 (Except.ok [])).storeQuery =
      some (pollQuery spacesCfg spacesSt 20) ∧
    (pollQuery spacesCfg spacesSt 20).Limit = some 2 ∧
    ("parked" ∈ (pollQuery spacesCfg spacesSt 20).NotFrom) ∧
    (poll spacesCfg spacesSt 20 (Except.ok [])).stateCounts
      OrchestratorState.Paused = 1 ∧
    "released" ∉ (pollQuery spacesCfg spacesSt 20).NotFrom := by
  have h := claim_C5 spacesCfg spacesSt 20 (Except.ok []) (by decide)
    (by decide)
  obtain ⟨hq, -, -, hlim, hnf, hcnt, hrel⟩ := h
  refine ⟨hq, ?_, ?_, ?_, ?_⟩
  · rw [hlim]
    decide
  · exact (hnf "parked").mpr (Or.inr (by decide))
  · rw [hcnt]
    decide
  · exact hrel "released" 5 (by decide) (by decide) (by decide)

/-- The starting engine state refuting the universally quantified pool-bound
claim: one non-stopped orchestrator while the configured ceiling is zero. -/
def overfullSt : PollState :=
  ⟨[("extra", ⟨OrchestratorState.Running, 0, 0⟩)], []⟩

/-- The zero-ceiling configuration for the pool-bound counterexample. -/
def overfullCfg : PollConfig := ⟨0, 0, 0, 0⟩

/-- C1 counterexample: the pool bound does not hold for *every* starting
orchestrator map.  Starting from a map that already exceeds
`maxInFlightOrchestrators` (here one running orchestrator against a ceiling
of zero), the fairness branch of `poll` never removes entries, so the
resulting map still exceeds the ceiling. -/
theorem claim_C1_counterexample :
    ¬ ((poll overfullCfg overfullSt 0
        (Except.ok [])).InFlightOrchestrators.length ≤
      overfullCfg.maxInFlightOrchestrators) := by decide

/-- C1 (amended): for every starting orchestrator map that holds at most
`maxInFlightOrchestrators` entries — as every map reachable by the engine
does, the map being initially empty — `poll` keeps the bound: free slots are
`maxInFlightOrchestrators` minus the survivor count, the store is queried
with exactly that limit and only when slots are positive, and at most one
orchestrator is created per returned row, so the resulting map has at most
`maxInFlightOrchestrators` entries.  `hlimit` states that the store honors
the query's limit. -/
theorem claim_C1_amended (cfg : PollConfig) (st : PollState) (now : Nat)
    (storeOutcome : Except Unit (List PubTx))
    (hstart : st.InFlightOrchestrators.length ≤ cfg.maxInFlightOrchestrators)
    (hlimit : ∀ rows, storeOutcome = Except.ok rows →
      (survivorsOf st).length < cfg.maxInFlightOrchestrators →
      rows.length + (survivorsOf st).length ≤ cfg.maxInFlightOrchestrators) :
    (poll cfg st now storeOutcome).InFlightOrchestrators.length ≤
      cfg.maxInFlightOrchestrators ∧
    ((survivorsOf st).length < cfg.maxInFlightOrchestrators →
      (poll cfg st now storeOutcome).storeQuery =
        some (pollQuery cfg st now) ∧
      (pollQuery cfg st now).Limit =
        some ((cfg.maxInFlightOrchestrators : Int) -
          ((survivorsOf st).length : Int))) ∧
    (cfg.maxInFlightOrchestrators ≤ (survivorsOf st).length →
      (poll cfg st now storeOutcome).storeQuery = none) ∧
    (∀ rows, storeOutcome = Except.ok rows →
      (poll cfg st now storeOutcome).InFlightOrchestrators.length ≤
        (survivorsOf st).length + rows.length) := by
  have hsurv : (survivorsOf st).length ≤ st.InFlightOrchestrators.length :=
    List.length_filter_le _ _
  by_cases hs : (survivorsOf st).length < cfg.maxInFlightOrchestrators
  · have hbranch : poll cfg st now storeOutcome =
        pollSpacesAvailable cfg st now storeOutcome := by
      unfold poll
      rw [if_pos (by omega)]
    rw [hbranch]
    cases storeOutcome with
    | error e =>
      refine ⟨by show (survivorsOf st).length ≤ _; omega,
        fun _ => ⟨rfl, rfl⟩, fun hfull => by omega,
        fun rows hrows => Except.noConfusion hrows⟩
    | ok rows =>
      have hlen := foldl_addRow_length now rows (survivorsOf st)
        (countsWithPaused st now)
      have hcap := hlimit rows rfl hs
      refine ⟨?_, fun _ => ⟨rfl, rfl⟩, fun hfull => by omega,
        fun rows' hrows' => ?_⟩
      · show (rows.foldl (addRowOrchestrator now)
          (survivorsOf st, countsWithPaused st now)).1.length ≤ _
        omega
      · injection hrows' with h1
        subst h1
        show (rows.foldl (addRowOrchestrator now)
          (survivorsOf st, countsWithPaused st now)).1.length ≤ _
        omega
  · have hbranch : poll cfg st now storeOutcome = pollFairness cfg st now := by
      unfold poll
      rw [if_neg (by omega)]
    rw [hbranch]
    refine ⟨by show (survivorsOf st).length ≤ _; omega,
      fun hlt => absurd hlt hs, fun _ => rfl, fun rows hrows => ?_⟩
    show (survivorsOf st).length ≤ _
    omega

/-- The starting engine state for the pool-bound instantiation: one running
orchestrator under a ceiling of two. -/
def boundedSt : PollState :=
  ⟨[("one", ⟨OrchestratorState.Running, 0, 0⟩)], []⟩

/-- The configuration for the pool-bound instantiation. -/
def boundedCfg : PollConfig := ⟨2, 100, 100, 10⟩

theorem claim_C1_witness :
    (poll boundedCfg boundedSt 5
      (Except.ok [⟨"two", 0, PubTxStatus.Pending⟩])).InFlightOrchestrators.length ≤
      boundedCfg.maxInFlightOrchestrators := by
  have h := claim_C1_amended boundedCfg boundedSt 5
    (Except.ok [⟨"two", 0, PubTxStatus.Pending⟩]) (by decide)
    (by
      intro rows hrows hlt
      injection hrows with h1
      subst h1
      decide)
  exact h.1

/-! ## Retry semantics -/

theorem retryDoLoop_error_iff (storeAt : Nat → Except Unit (List PubTx))
    (k fuel : Nat) :
    (retryDoLoop (fun n => (true, storeAt n)) k fuel = Except.error () ↔
      ∀ j ≤ fuel, storeAt (k + j) = Except.error ()) := by
  induction fuel generalizing k with
  | zero =>
    show (storeAt k = Except.error ()) ↔ _
    constructor
    · intro h j hj
      have hj0 : j = 0 := Nat.le_zero.mp hj
      subst hj0
      simpa using h
    · intro h
      simpa using h 0 (le_refl 0)
  | succ fuel ih =>
    cases hk : storeAt k with
    | ok rows =>
      have hred : retryDoLoop (fun n => (true, storeAt n)) k (fuel + 1) =
          Except.ok rows := by
        show (match (true, storeAt k) with
          | (_, Except.ok rows) => Except.ok rows
          | (retryFlag, Except.error e) =>
            if retryFlag then
              retryDoLoop (fun n => (true, storeAt n)) (k + 1) fuel
            else Except.error e) = Except.ok rows
        rw [hk]
      rw [hred]
      constructor
      · intro h
        exact Except.noConfusion h
      · intro hall
        have h0 := hall 0 (Nat.zero_le _)
        rw [Nat.add_zero, hk] at h0
        exact Except.noConfusion h0
    | error e =>
      cases e
      have hred : retryDoLoop (fun n => (true, storeAt n)) k (fuel + 1) =
          retryDoLoop (fun n => (true, storeAt n)) (k + 1) fuel := by
        show (match (true, storeAt k) with
          | (_, Except.ok rows) => Except.ok rows
          | (retryFlag, Except.error e) =>
            if retryFlag then
              retryDoLoop (fun n => (true, storeAt n)) (k + 1) fuel
            else Except.error e) = _
        rw [hk]
        simp
      rw [hred, ih (k + 1)]
      constructor
      · intro h j hj
        cases j with
        | zero => simpa using hk
        | succ j =>
          have hjj : j ≤ fuel := by omega
          have := h j hjj
          rw [show k + 1 + j = k + (j + 1) by omega] at this
          exact this
      · intro h j hj
        rw [show k + 1 + j = k + (j + 1) by omega]
        exact h (j + 1) (by omega)

theorem retryDelay_step (n : Nat) :
    retryDelayMs 250 2 30000 (n + 1) =
      min 30000 (2 * retryDelayMs 250 2 30000 n) := by
  unfold retryDelayMs
  have harg : 250 * 2 ^ (n + 1) = 2 * (250 * 2 ^ n) := by ring
  rw [harg]
  generalize 250 * 2 ^ n = x
  omega

/-- C7: the `ListTransactions` retry in `poll` is indefinite: the callback
always requests another attempt, the retried loop returns a database error
only when every attempt the context allowed failed (i.e. only on context
cancellation), the backoff delays start at 250 ms, double each attempt and
are capped at 30 s, and a cancelled retry makes `poll` return `-1` as the
polled count with no orchestrator created and the pause table untouched. -/
theorem claim_C7 (cfg : PollConfig) (st : PollState) (now : Nat)
    (hspace : (survivorsOf st).length < cfg.maxInFlightOrchestrators) :
    (∀ store q n, (pollRetryCallback store q n).1 = true) ∧
    (∀ (storeAt : Nat → Except Unit (List PubTx)) (k fuel : Nat),
      (retryDoLoop (fun n => (true, storeAt n)) k fuel = Except.error () ↔
        ∀ j ≤ fuel, storeAt (k + j) = Except.error ())) ∧
    retryDelayMs 250 2 30000 0 = 250 ∧
    (∀ n, retryDelayMs 250 2 30000 (n + 1) =
      min 30000 (2 * retryDelayMs 250 2 30000 n)) ∧
    (∀ n, retryDelayMs 250 2 30000 n ≤ 30000) ∧
    ((poll cfg st now (Except.error ())).polled = -1 ∧
     (poll cfg st now (Except.error ())).InFlightOrchestrators =
       survivorsOf st ∧
     (poll cfg st now (Except.error ())).SigningAddressesPausedUntil =
       st.SigningAddressesPausedUntil) := by
  have hbranch : poll cfg st now (Except.error ()) =
      pollSpacesAvailable cfg st now (Except.error ()) := by
    unfold poll
    rw [if_pos (by omega)]
  refine ⟨fun store q n => rfl, retryDoLoop_error_iff, by decide,
    retryDelay_step, fun n => min_le_left _ _, ?_, ?_, ?_⟩
  · rw [hbranch]
    rfl
  · rw [hbranch]
    rfl
  · rw [hbranch]
    rfl

/-- The engine state for the retry-cancellation instantiation: empty
orchestrator map, empty pause table. -/
def emptySt : PollState := ⟨[], []⟩

/-- The configuration for the retry-cancellation instantiation. -/
def retryCfg : PollConfig := ⟨2, 100, 100, 10⟩

theorem claim_C7_witness :
    retryDoLoop (fun _ => (true, Except.error ())) 0 3 = Except.error () ∧
    (poll retryCfg emptySt 7 (Except.error ())).polled = -1 ∧
    (poll retryCfg emptySt 7 (Except.error ())).InFlightOrchestrators = [] := by
  have h := claim_C7 retryCfg emptySt 7 (by decide)
  refine ⟨?_, h.2.2.2.2.2.1, ?_⟩
  · exact (h.2.1 (fun _ => Except.error ()) 0 3).mpr (fun j hj => rfl)
  · rw [h.2.2.2.2.2.2.1]
    decide

/-! ## Default configuration -/

/-- C8 counterexample: `DefaultTransactionEngineConfig` does not carry a
`maxOverloadProcessTime` of 10 minutes — the Go struct literal never sets
that field, so it stays nil. -/
theorem claim_C8_counterexample :
    ¬ (DefaultTransactionEngineConfig.MaxOverloadProcessTime = some "10m") := by
  decide

/-- C8 (amended): `DefaultTransactionEngineConfig` carries
`maxInFlightOrchestrators = 50`, `interval = 5s`, `maxStaleTime = 1m`,
`maxIdleTime = 10s` (written against the misspelled field `MaxIdleTim`, read
per the spec as `MaxIdleTime`), retry `initialDelay = 250ms`,
`maxDelay = 30s`, `factor = 2.0`, and `transactionCache.capacity = 1000`,
but leaves `maxOverloadProcessTime` unset: the 10-minute default lives only
in the package constant `defaultMaxOverloadProcessTime`. -/
theorem claim_C8_amended :
    DefaultTransactionEngineConfig.MaxInFlightOrchestrators = some 50 ∧
    DefaultTransactionEngineConfig.Interval = some "5s" ∧
    DefaultTransactionEngineConfig.MaxStaleTime = some "1m" ∧
    DefaultTransactionEngineConfig.MaxIdleTime = some "10s" ∧
    DefaultTransactionEngineConfig.MaxOverloadProcessTime = none ∧
    DefaultTransactionEngineConfig.Retry.InitialDelay = some "250ms" ∧
    DefaultTransactionEngineConfig.Retry.MaxDelay = some "30s" ∧
    DefaultTransactionEngineConfig.Retry.Factor = some 2 ∧
    DefaultTransactionEngineConfig.TransactionCache.Capacity = some 1000 ∧
    defaultMaxOverloadProcessTime = "10m" :=
  ⟨rfl, rfl, rfl, rfl, rfl, rfl, rfl, rfl, rfl, rfl⟩
